import Mathlib

/-!
# Verification of the GASP population-management core (`general.py`)

Shallow embedding of the selection-and-survival core: the `Organism` record,
the two-tier `Pool` (promotion set + queue), fitness and selection-probability
computation, stochastic parent selection, organism replacement, and the
stopping criteria.

Embedding conventions:

* Python floats are modelled as exact rationals (`ℚ`); the literal
  `0.000000001` from the source becomes the exact rational `1 / 1000000000`.
* Convex-hull distances are computed by an external collaborator
  (pymatgen phase-diagram code).  They are abstracted as a valuation
  `vals : ℕ → ℚ` from organism id to distance above the hull;
  `compute_pd_values` assigns `organism.value := vals organism.id`.
* Python mutates `Organism` objects in place and containers hold references;
  here organisms are immutable values and each operation returns the updated
  pool (and, for `replace_organism`, the updated argument organisms).
  Object identity (`==` on objects without `__eq__`) is modelled by value
  equality, which coincides with identity when organism ids are distinct.
* A `deque` is a `List` whose head is the left end, so `appendleft` is `cons`.
* Paths on which the source raises (`IndexError` on an empty promotion set,
  `ZeroDivisionError` in fitness or selection-probability normalisation)
  return `none` in an `Option` result.
* Python's `list.sort` is a stable sort; the output of a stable sort under a
  total preorder is unique, so it is embedded as a stable insertion sort.
* `selection.power` (a configuration exponent, default 1) is modelled as a
  natural number; `fitness ** 0 = 1` in both `math.pow` and `ℚ`.
-/

set_option maxRecDepth 8000

namespace GASP

/-- An organism (`Organism.__init__`): the scoring and selection state used by
the pool.  The geometric structure/composition payload is omitted; `epa`
stands in for the externally computed energy per atom. -/
structure Organism where
  id : ℕ
  epa : ℚ
  value : ℚ
  fitness : ℚ
  selection_prob : ℚ
  selection_loc : ℚ
  is_active : Bool
deriving DecidableEq

/-- `CompositionSpace.objective_function`: either an energy-per-atom search or
a phase-diagram search. -/
inductive ObjectiveFunction where
  | epa
  | pd
deriving DecidableEq

/-- `SelectionProbDist`: how many organisms act as parents and the selection
power (exponent). -/
structure SelectionProbDist where
  num_parents : ℕ
  power : ℕ
deriving DecidableEq

/-- The pool (`Pool`): a promotion set holding the best few organisms and a
queue (deque, head = left end) with the rest. -/
structure Pool where
  size : ℕ
  num_promoted : ℕ
  promotion_set : List Organism
  queue : List Organism
  selection : SelectionProbDist
  num_adds : ℕ
deriving DecidableEq

/-- The threshold `0.000000001` used for hull membership in pd mode. -/
def pdEps : ℚ := 1 / 1000000000

/-- Insert `a` into `l` after every element `b` with `le b a`: one step of a
stable insertion sort. -/
def insertSorted {α : Type} (le : α → α → Bool) (a : α) : List α → List α
  | [] => [a]
  | b :: l => if le b a then b :: insertSorted le a l else a :: b :: l

/-- Stable sort (the embedding of Python's `list.sort`, which is stable; the
output of a stable sort under a total preorder is unique). -/
def stableSort {α : Type} (le : α → α → Bool) (l : List α) : List α :=
  l.foldl (fun acc a => insertSorted le a acc) []

/-- Python slice `l[s:]` for a possibly negative integer start `s`. -/
def pySliceFrom {α : Type} (s : ℤ) (l : List α) : List α :=
  if s < 0 then l.drop (l.length - s.natAbs) else l.drop s.toNat

/-- `Pool.to_list`: promotion set followed by the queue contents. -/
def Pool.to_list (p : Pool) : List Organism :=
  p.promotion_set ++ p.queue

/-- `sort(key=lambda x: x.value, reverse=True)`: stable descending sort by
objective value. -/
def sortByValueDesc (l : List Organism) : List Organism :=
  stableSort (fun x y => decide (y.value ≤ x.value)) l

/-- `Pool.get_n_best_organisms`: sort the pool in order of decreasing value
and take the sublist `pool_list[len(pool_list) - n:]` under Python slice
semantics. -/
def Pool.get_n_best_organisms (p : Pool) (n : ℕ) : List Organism :=
  let pool_list := sortByValueDesc p.to_list
  pySliceFrom ((pool_list.length : ℤ) - (n : ℤ)) pool_list

/-- The reference subset used by `Pool.compute_fitnesses`: the best
`num_parents + 1` organisms when `num_parents < size`, else the best `size`. -/
def Pool.best_organisms (p : Pool) : List Organism :=
  if p.selection.num_parents < p.size then
    p.get_n_best_organisms (p.selection.num_parents + 1)
  else
    p.get_n_best_organisms p.size

/-- `Pool.compute_fitnesses`: fitness of each reference-subset member is
`(value - worst) / (best - worst)`; every other organism gets fitness `0`.
The source indexes `best_organisms[-1]` and `best_organisms[0]` and divides by
`best - worst`, so an empty subset (IndexError) or equal extremes
(ZeroDivisionError) raise: both are `none` here. -/
def Pool.compute_fitnesses (p : Pool) : Option Pool :=
  let best_organisms := p.best_organisms
  match best_organisms.getLast?, best_organisms.head? with
  | some b, some w =>
    if b.value = w.value then none
    else
      let upd := fun (o : Organism) =>
        if o ∈ best_organisms then
          { o with fitness := (o.value - w.value) / (b.value - w.value) }
        else
          { o with fitness := 0 }
      some { p with promotion_set := p.promotion_set.map upd,
                    queue := p.queue.map upd }
  | _, _ => none

/-- `sort(key=lambda x: x.fitness, reverse=False)`: stable ascending sort by
fitness. -/
def sortByFitnessAsc (l : List Organism) : List Organism :=
  stableSort (fun x y => decide (x.fitness ≤ y.fitness)) l

/-- The loop at the end of `Pool.compute_selection_probs`: walking the
organisms in increasing-fitness order, assign each its selection probability
`fitness ** power / denom` and the running interval start. -/
def assignSelectionLocs (power : ℕ) (denom : ℚ) (loc : ℚ) :
    List Organism → List Organism
  | [] => []
  | o :: rest =>
    { o with selection_prob := o.fitness ^ power / denom,
             selection_loc := loc } ::
      assignSelectionLocs power denom (loc + o.fitness ^ power / denom) rest

/-- Recover the updated copy of organism `o` after an in-place bulk update:
the unique element of `assigned` with the same id (organism ids are unique in
a run, so this reproduces Python's shared-object mutation). -/
def lookupById (assigned : List Organism) (o : Organism) : Organism :=
  (assigned.find? (fun a => a.id == o.id)).getD o

/-- `Pool.compute_selection_probs`: normalise `fitness ** power` over all pool
organisms and lay the resulting probabilities out as adjacent sub-intervals of
the unit interval, in increasing-fitness order.  A zero denominator raises
ZeroDivisionError in the source, hence `none`. -/
def Pool.compute_selection_probs (p : Pool) : Option Pool :=
  let organisms := sortByFitnessAsc p.to_list
  let denom := organisms.foldl (fun d o => d + o.fitness ^ p.selection.power) 0
  if denom = 0 then none
  else
    let assigned := assignSelectionLocs p.selection.power denom 0 organisms
    some { p with promotion_set := p.promotion_set.map (lookupById assigned),
                  queue := p.queue.map (lookupById assigned) }

/-- `Pool.get_worst_in_promotion_set`: the organism with the largest value
(first such under the source's scan); `none` models the IndexError on an
empty promotion set. -/
def Pool.get_worst_in_promotion_set (p : Pool) : Option Organism :=
  match p.promotion_set with
  | [] => none
  | o :: rest => some (rest.foldl (fun w x => if w.value < x.value then x else w) o)

/-- `Pool.compute_pd_values`, applied to the whole pool: the external hull
computation (abstracted as `vals`) assigns each organism the distance of its
entry above the convex hull, keyed by organism id. -/
def setPdValues (vals : ℕ → ℚ) (p : Pool) : Pool :=
  { p with
    promotion_set := p.promotion_set.map (fun o => { o with value := vals o.id }),
    queue := p.queue.map (fun o => { o with value := vals o.id }) }

/-- `Pool.check_promotion_set_pd`: move promotion-set organisms with
`value > 0` to the back (left end) of the queue, then move queue organisms
with `value < 0.000000001` to the promotion set. -/
def Pool.check_promotion_set_pd (p : Pool) : Pool :=
  let organisms_to_demote := p.promotion_set.filter (fun o => decide (0 < o.value))
  let ps1 := p.promotion_set.filter (fun o => !decide (0 < o.value))
  let q1 := organisms_to_demote.reverse ++ p.queue
  let organisms_to_promote := q1.filter (fun o => decide (o.value < pdEps))
  let q2 := q1.filter (fun o => !decide (o.value < pdEps))
  { p with promotion_set := ps1 ++ organisms_to_promote, queue := q2 }

/-- `Pool.add_organism`.  epa: set `value := epa` and either swap with the
worst promotion-set member (strictly better) or prepend to the queue; `none`
models the IndexError when the promotion set is empty.  pd: recompute hull
distances for the whole pool plus the newcomer, reconcile the promotion set,
then place the newcomer by the test `value == 0.0`. -/
def Pool.add_organism (p : Pool) (organism_to_add : Organism)
    (objective_function : ObjectiveFunction) (vals : ℕ → ℚ) : Option Pool :=
  let p1 := { p with num_adds := p.num_adds + 1 }
  let org0 := { organism_to_add with is_active := true }
  match objective_function with
  | .epa =>
    let org := { org0 with value := org0.epa }
    match p1.get_worst_in_promotion_set with
    | none => none
    | some worst_organism =>
      if org.value < worst_organism.value then
        some { p1 with
          promotion_set := (p1.promotion_set ++ [org]).erase worst_organism,
          queue := worst_organism :: p1.queue }
      else
        some { p1 with queue := org :: p1.queue }
  | .pd =>
    let org := { org0 with value := vals org0.id }
    let p2 := Pool.check_promotion_set_pd (setPdValues vals p1)
    if org.value = 0 then
      some { p2 with promotion_set := p2.promotion_set ++ [org] }
    else
      some { p2 with queue := org :: p2.queue }

/-- Replace the first occurrence of `a` in a list by `b`: the queue branch of
`Pool.replace_organism` (`insert` at `index(old)` followed by `remove(old)`). -/
def replaceFirst (a b : Organism) : List Organism → List Organism
  | [] => []
  | x :: xs => if x = a then b :: xs else x :: replaceFirst a b xs

/-- Result of `Pool.replace_organism`: the updated pool together with the two
argument organisms as mutated by the call. -/
structure ReplaceResult where
  pool : Pool
  old_org : Organism
  new_org : Organism
deriving DecidableEq

/-- `Pool.replace_organism`: recompute values (`epa`, or hull distances for
the whole pool plus `new_org` in pd), substitute `new_org` for `old_org` in
whichever container holds it (no-op if neither does), flip the
`is_active` flags, and in pd reconcile the promotion set afterwards. -/
def Pool.replace_organism (p : Pool) (old_org new_org : Organism)
    (objective_function : ObjectiveFunction) (vals : ℕ → ℚ) : ReplaceResult :=
  let pv := match objective_function with
    | .epa => p
    | .pd => setPdValues vals p
  let old1 := match objective_function with
    | .epa => old_org
    | .pd =>
      if old_org ∈ p.to_list then { old_org with value := vals old_org.id }
      else old_org
  let new1 := match objective_function with
    | .epa => { new_org with value := new_org.epa, is_active := true }
    | .pd => { new_org with value := vals new_org.id, is_active := true }
  let pm :=
    if old1 ∈ pv.promotion_set then
      { pv with promotion_set := (pv.promotion_set.erase old1) ++ [new1] }
    else if old1 ∈ pv.queue then
      { pv with queue := replaceFirst old1 new1 pv.queue }
    else pv
  let pf := match objective_function with
    | .epa => pm
    | .pd => pm.check_promotion_set_pd
  ⟨pf, { old1 with is_active := false }, new1⟩

/-- `Pool.add_initial_population`: populate the (empty) pool from the initial
population — epa: set `value := epa`, sort ascending, first `num_promoted` to
the promotion set, rest prepended to the queue; pd: recompute hull distances
and partition at the `0.000000001` threshold — then compute fitnesses and
selection probabilities. -/
def Pool.add_initial_population (p : Pool) (initial_population : List Organism)
    (objective_function : ObjectiveFunction) (vals : ℕ → ℚ) : Option Pool :=
  let p1 : Pool := match objective_function with
    | .epa =>
      let organisms_list :=
        stableSort (fun x y => decide (x.value ≤ y.value))
          (initial_population.map (fun o => { o with value := o.epa }))
      { p with
        promotion_set := p.promotion_set ++ organisms_list.take p.num_promoted,
        queue := (organisms_list.drop p.num_promoted).reverse ++ p.queue }
    | .pd =>
      let organisms_list :=
        initial_population.map (fun o => { o with value := vals o.id })
      { p with
        promotion_set :=
          p.promotion_set ++ organisms_list.filter (fun o => decide (o.value < pdEps)),
        queue :=
          (organisms_list.filter (fun o => !decide (o.value < pdEps))).reverse
            ++ p.queue }
  match p1.compute_fitnesses with
  | none => none
  | some p2 => p2.compute_selection_probs

/-- The inner `for organism in pool_list` scan of `Pool.select_organisms`:
append every not-yet-selected organism whose interval
`[selection_loc, selection_loc + selection_prob)` contains the draw, returning
early (`Sum.inr`) as soon as `n` organisms have been collected. -/
def scanPool (n : ℕ) (rand : ℚ) (selected : List Organism) :
    List Organism → List Organism ⊕ List Organism
  | [] => Sum.inl selected
  | o :: rest =>
    if o.selection_loc ≤ rand ∧ rand < o.selection_loc + o.selection_prob then
      if o ∈ selected then
        scanPool n rand selected rest
      else
        let selected1 := selected ++ [o]
        if selected1.length = n then Sum.inr selected1
        else scanPool n rand selected1 rest
    else
      scanPool n rand selected rest

/-- The outer `while True` of `Pool.select_organisms`, consuming one random
draw per iteration; `none` when the supplied draws run out before `n`
distinct organisms are found (the source would keep waiting for more). -/
def selectLoop (n : ℕ) (pool_list : List Organism) (selected : List Organism) :
    List ℚ → Option (List Organism)
  | [] => none
  | r :: rs =>
    match scanPool n r selected pool_list with
    | Sum.inr result => some result
    | Sum.inl selected1 => selectLoop n pool_list selected1 rs

/-- `Pool.select_organisms`: roulette-wheel selection of `n` distinct
organisms, driven by the given sequence of uniform draws in `[0, 1)`. -/
def Pool.select_organisms (p : Pool) (n : ℕ) (draws : List ℚ) :
    Option (List Organism) :=
  selectLoop n p.to_list [] draws

/-- `StoppingCriteria` state: the three optional stopping conditions plus the
calculation counter and the satisfaction flag.  The target structure of
`found_structure` is an external geometric payload, abstracted as an id. -/
structure StoppingCriteria where
  num_energy_calcs : Option ℕ
  value_achieved : Option ℚ
  found_structure : Option ℕ
  calc_counter : ℕ
  are_satisfied : Bool
deriving DecidableEq

/-- The composition-space-arity defaults for `num_energy_calcs` (the source
only assigns them for 1-4 endpoints; any other count leaves the attribute
undefined, modelled as `none`). -/
def default_num_energy_calcs : ℕ → Option ℕ
  | 1 => some 800
  | 2 => some 1000
  | 3 => some 3000
  | 4 => some 6000
  | _ => none

/-- The `stopping_parameters` dictionary.  Each field: `none` when the key is
absent, `some none` when set to `None`/`'default'`, `some (some v)` when
given a real value. -/
structure StoppingParamsDict where
  value_achieved : Option (Option ℚ)
  found_structure : Option (Option ℕ)
  num_energy_calcs : Option (Option ℕ)

/-- `StoppingCriteria.__init__`: `stopping_parameters = none` models passing
`None`/`'default'`.  When an explicit `value_achieved` is supplied in a pd
search the source leaves the attribute unassigned (a latent AttributeError),
modelled as `none`. -/
def StoppingCriteria.init (stopping_parameters : Option StoppingParamsDict)
    (num_endpoints : ℕ) (objective_function : ObjectiveFunction) :
    Option StoppingCriteria :=
  let dflt := default_num_energy_calcs num_endpoints
  match stopping_parameters with
  | none => some ⟨dflt, none, none, 0, false⟩
  | some sp =>
    let va : Option (Option ℚ) :=
      match sp.value_achieved with
      | none => some none
      | some none => some none
      | some (some v) =>
        match objective_function with
        | .epa => some (some v)
        | .pd => none
    match va with
    | none => none
    | some value_achieved =>
      let found_structure : Option ℕ :=
        match sp.found_structure with
        | none => none
        | some none => none
        | some (some s) => some s
      let num_energy_calcs : Option ℕ :=
        match sp.num_energy_calcs with
        | some (some k) => some k
        | some none =>
          if value_achieved = none ∧ found_structure = none then dflt else none
        | none =>
          if value_achieved = none ∧ found_structure = none then dflt else none
      some ⟨num_energy_calcs, value_achieved, found_structure, 0, false⟩

/-- `StoppingCriteria.update_calc_counter`: when the count criterion is
active, increment the counter and set `are_satisfied` once it reaches the
configured maximum. -/
def StoppingCriteria.update_calc_counter (sc : StoppingCriteria) :
    StoppingCriteria :=
  match sc.num_energy_calcs with
  | none => sc
  | some n =>
    { sc with calc_counter := sc.calc_counter + 1,
              are_satisfied :=
                if n ≤ sc.calc_counter + 1 then true else sc.are_satisfied }

/-- The pd-mode pool invariant: every promotion-set organism is on the hull
(value below the epsilon) and every queue organism is off it. -/
def pdInvariant (p : Pool) : Prop :=
  (∀ o ∈ p.promotion_set, o.value < pdEps) ∧ (∀ o ∈ p.queue, pdEps ≤ o.value)

instance (p : Pool) : Decidable (pdInvariant p) := by
  unfold pdInvariant; infer_instance

theorem mem_insertSorted {α : Type} (le : α → α → Bool) (a : α) (l : List α)
    (x : α) : x ∈ insertSorted le a l ↔ x = a ∨ x ∈ l := by
  induction l with
  | nil => simp [insertSorted]
  | cons b t ih =>
    simp only [insertSorted]
    by_cases h : le b a
    · rw [if_pos h]
      simp only [List.mem_cons, ih]
      tauto
    · rw [if_neg h]
      simp only [List.mem_cons]

theorem insertSorted_perm {α : Type} (le : α → α → Bool) (a : α)
    (l : List α) : (insertSorted le a l).Perm (a :: l) := by
  induction l with
  | nil => simp [insertSorted]
  | cons b t ih =>
    simp only [insertSorted]
    by_cases h : le b a
    · rw [if_pos h]
      exact (ih.cons b).trans (List.Perm.swap a b t)
    · rw [if_neg h]

theorem foldl_insertSorted_perm {α : Type} (le : α → α → Bool) :
    ∀ (l acc : List α),
      (l.foldl (fun acc a => insertSorted le a acc) acc).Perm (acc ++ l) := by
  intro l
  induction l with
  | nil => intro acc; simp
  | cons a t ih =>
    intro acc
    have h1 := ih (insertSorted le a acc)
    have h2 : (insertSorted le a acc ++ t).Perm ((a :: acc) ++ t) :=
      List.Perm.append_right t (insertSorted_perm le a acc)
    have h3 : ((a :: acc) ++ t).Perm (acc ++ a :: t) := by
      simpa using (@List.perm_middle _ a acc t).symm
    simpa using (h1.trans (h2.trans h3))

theorem stableSort_perm {α : Type} (le : α → α → Bool) (l : List α) :
    (stableSort le l).Perm l := by
  simpa using foldl_insertSorted_perm le l []

theorem pairwise_insertSorted {α : Type} {le : α → α → Bool}
    (htrans : ∀ a b c, le a b = true → le b c = true → le a c = true)
    (htot : ∀ a b, le a b = true ∨ le b a = true)
    (a : α) (l : List α) (h : l.Pairwise (fun x y => le x y = true)) :
    (insertSorted le a l).Pairwise (fun x y => le x y = true) := by
  induction l with
  | nil => simp [insertSorted]
  | cons b t ih =>
    rw [List.pairwise_cons] at h
    simp only [insertSorted]
    by_cases hba : le b a
    · rw [if_pos hba]
      rw [List.pairwise_cons]
      refine ⟨?_, ih h.2⟩
      intro x hx
      rcases (mem_insertSorted le a t x).mp hx with hxa | hxt
      · exact hxa ▸ hba
      · exact h.1 x hxt
    · have hab : le a b = true := by
        rcases htot a b with h1 | h1
        · exact h1
        · exact absurd h1 hba
      rw [if_neg hba]
      rw [List.pairwise_cons]
      refine ⟨?_, List.Pairwise.cons h.1 h.2⟩
      intro x hx
      rcases List.mem_cons.mp hx with hxb | hxt
      · exact hxb ▸ hab
      · exact htrans a b x hab (h.1 x hxt)

theorem pairwise_stableSort {α : Type} {le : α → α → Bool}
    (htrans : ∀ a b c, le a b = true → le b c = true → le a c = true)
    (htot : ∀ a b, le a b = true ∨ le b a = true) (l : List α) :
    (stableSort le l).Pairwise (fun x y => le x y = true) := by
  have aux : ∀ (l acc : List α), acc.Pairwise (fun x y => le x y = true) →
      (l.foldl (fun acc a => insertSorted le a acc) acc).Pairwise
        (fun x y => le x y = true) := by
    intro l
    induction l with
    | nil => intro acc h; simpa using h
    | cons a t ih =>
      intro acc h
      exact ih _ (pairwise_insertSorted htrans htot a acc h)
  simpa [stableSort] using aux l [] List.Pairwise.nil

theorem sortByValueDesc_perm (l : List Organism) :
    (sortByValueDesc l).Perm l :=
  stableSort_perm _ l

theorem sortByValueDesc_pairwise (l : List Organism) :
    (sortByValueDesc l).Pairwise (fun x y => y.value ≤ x.value) := by
  have h := @pairwise_stableSort Organism
    (fun x y : Organism => decide (y.value ≤ x.value))
    (fun a b c hab hbc => by
      simp only [decide_eq_true_eq] at *
      exact le_trans hbc hab)
    (fun a b => by
      simp only [decide_eq_true_eq]
      exact le_total b.value a.value) l
  exact h.imp (fun hx => of_decide_eq_true hx)

theorem sortByFitnessAsc_perm (l : List Organism) :
    (sortByFitnessAsc l).Perm l :=
  stableSort_perm _ l

theorem sortByFitnessAsc_pairwise (l : List Organism) :
    (sortByFitnessAsc l).Pairwise (fun x y => x.fitness ≤ y.fitness) := by
  have h := @pairwise_stableSort Organism
    (fun x y : Organism => decide (x.fitness ≤ y.fitness))
    (fun a b c hab hbc => by
      simp only [decide_eq_true_eq] at *
      exact le_trans hab hbc)
    (fun a b => by
      simp only [decide_eq_true_eq]
      exact le_total a.fitness b.fitness) l
  exact h.imp (fun hx => of_decide_eq_true hx)

/-- The stopping-criteria state produced by `StoppingCriteria.__init__` with
default parameters over a single-endpoint composition space. -/
def defaultStoppingCriteria : StoppingCriteria :=
  ⟨some 800, none, none, 0, false⟩

theorem update_iterate_default (k : ℕ) :
    StoppingCriteria.update_calc_counter^[k] defaultStoppingCriteria =
      ⟨some 800, none, none, k, decide (800 ≤ k)⟩ := by
  induction k with
  | zero => rfl
  | succ k ih =>
    rw [Function.iterate_succ_apply', ih]
    simp only [StoppingCriteria.update_calc_counter]
    rcases le_or_lt 800 (k + 1) with h | h
    · rw [if_pos h, decide_eq_true h]
    · have h1 : ¬ 800 ≤ k + 1 := Nat.not_le_of_lt h
      have h2 : ¬ 800 ≤ k := by omega
      rw [if_neg h1]
      have hdd : decide (800 ≤ k) = decide (800 ≤ k + 1) := by
        rw [decide_eq_false h1, decide_eq_false h2]
      rw [hdd]

/-- C8: a `StoppingCriteria` built with no explicit parameters over a
single-endpoint composition space defaults to `num_energy_calcs = 800`;
starting from that fresh state, after exactly 800 calls to
`update_calc_counter` the flag `are_satisfied` is true, and after exactly
799 calls it is false. -/
theorem stopping_criteria_default_800 :
    StoppingCriteria.init none 1 .epa = some defaultStoppingCriteria ∧
    defaultStoppingCriteria.num_energy_calcs = some 800 ∧
    (StoppingCriteria.update_calc_counter^[800]
        defaultStoppingCriteria).are_satisfied = true ∧
    (StoppingCriteria.update_calc_counter^[799]
        defaultStoppingCriteria).are_satisfied = false := by
  refine ⟨rfl, rfl, ?_, ?_⟩
  · rw [update_iterate_default]
    decide
  · rw [update_iterate_default]
    decide

/-- C9: in epa mode, `replace_organism` on an `old_org` that is in neither
container does not fail: it inserts nothing and leaves both containers
unchanged, yet still deactivates `old_org` and activates `new_org`. -/
theorem replace_organism_nonmember_epa (p : Pool) (old_org new_org : Organism)
    (vals : ℕ → ℚ)
    (h1 : old_org ∉ p.promotion_set) (h2 : old_org ∉ p.queue)
    (h3 : ∀ o ∈ p.to_list, o.id ≠ new_org.id) :
    (p.replace_organism old_org new_org .epa vals).pool.promotion_set =
        p.promotion_set ∧
    (p.replace_organism old_org new_org .epa vals).pool.queue = p.queue ∧
    (∀ o ∈ (p.replace_organism old_org new_org .epa vals).pool.to_list,
        o.id ≠ new_org.id) ∧
    (p.replace_organism old_org new_org .epa vals).old_org.is_active = false ∧
    (p.replace_organism old_org new_org .epa vals).new_org.is_active = true := by
  have hr : p.replace_organism old_org new_org .epa vals =
      ⟨p, { old_org with is_active := false },
        { new_org with value := new_org.epa, is_active := true }⟩ := by
    simp only [Pool.replace_organism]
    rw [if_neg h1, if_neg h2]
  rw [hr]
  exact ⟨rfl, rfl, h3, rfl, rfl⟩

/-- The organism delivered by `w9pool`: promotion set and queue for the C9
witness scenario. -/
def w9org1 : Organism := ⟨1, 5, 5, 0, 0, 0, true⟩

def w9org2 : Organism := ⟨2, 7, 7, 0, 0, 0, true⟩

def w9old : Organism := ⟨3, 6, 6, 0, 0, 0, true⟩

def w9new : Organism := ⟨4, 4, 0, 0, 0, 0, false⟩

def w9pool : Pool := ⟨20, 3, [w9org1], [w9org2], ⟨20, 1⟩, 0⟩

theorem replace_organism_nonmember_epa_witness :
    decide ((w9pool.replace_organism w9old w9new .epa
        (fun _ => 0)).pool.promotion_set = w9pool.promotion_set ∧
      (w9pool.replace_organism w9old w9new .epa (fun _ => 0)).pool.queue =
        w9pool.queue ∧
      (∀ o ∈ (w9pool.replace_organism w9old w9new .epa
          (fun _ => 0)).pool.to_list, o.id ≠ w9new.id) ∧
      (w9pool.replace_organism w9old w9new .epa
          (fun _ => 0)).old_org.is_active = false ∧
      (w9pool.replace_organism w9old w9new .epa
          (fun _ => 0)).new_org.is_active = true) = true :=
  decide_eq_true (replace_organism_nonmember_epa w9pool w9old w9new
    (fun _ => 0) (by decide) (by decide) (by decide))

theorem foldl_worst_spec (l : List Organism) (o : Organism) :
    (l.foldl (fun w x => if w.value < x.value then x else w) o) ∈ o :: l ∧
    o.value ≤ (l.foldl (fun w x => if w.value < x.value then x else w) o).value ∧
    ∀ x ∈ l,
      x.value ≤ (l.foldl (fun w x => if w.value < x.value then x else w) o).value := by
  induction l generalizing o with
  | nil => exact ⟨List.mem_singleton_self o, le_refl _, by simp⟩
  | cons x t ih =>
    rw [List.foldl_cons]
    by_cases hc : o.value < x.value
    · rw [if_pos hc]
      obtain ⟨hmem, hle, hall⟩ := ih x
      refine ⟨List.mem_cons_of_mem o hmem, le_trans (le_of_lt hc) hle, ?_⟩
      intro y hy
      rcases List.mem_cons.mp hy with h | h
      · rw [h]; exact hle
      · exact hall y h
    · rw [if_neg hc]
      obtain ⟨hmem, hle, hall⟩ := ih o
      refine ⟨?_, hle, ?_⟩
      · rcases List.mem_cons.mp hmem with h | h
        · rw [h]; exact List.mem_cons_self o (x :: t)
        · exact List.mem_cons_of_mem o (List.mem_cons_of_mem x h)
      · intro y hy
        rcases List.mem_cons.mp hy with h | h
        · rw [h]; exact le_trans (le_of_not_lt hc) hle
        · exact hall y h

theorem get_worst_in_promotion_set_spec (p : Pool) (w : Organism)
    (h : p.get_worst_in_promotion_set = some w) :
    w ∈ p.promotion_set ∧ ∀ a ∈ p.promotion_set, a.value ≤ w.value := by
  cases hps : p.promotion_set with
  | nil => rw [Pool.get_worst_in_promotion_set, hps] at h; cases h
  | cons o rest =>
    rw [Pool.get_worst_in_promotion_set, hps] at h
    obtain ⟨hmem, hle, hall⟩ := foldl_worst_spec rest o
    have hw : rest.foldl (fun w x => if w.value < x.value then x else w) o = w :=
      Option.some.injEq _ _ ▸ h
    rw [hw] at hmem hle hall
    refine ⟨hmem, ?_⟩
    intro a ha
    rcases List.mem_cons.mp ha with h1 | h1
    · exact h1 ▸ hle
    · exact hall a h1

theorem get_worst_in_promotion_set_eq_none (p : Pool) :
    p.get_worst_in_promotion_set = none ↔ p.promotion_set = [] := by
  cases h : p.promotion_set with
  | nil => rw [Pool.get_worst_in_promotion_set, h]; simp
  | cons o rest => rw [Pool.get_worst_in_promotion_set, h]; simp

/-- C6: in epa mode, if every promotion-set organism's value is at most every
queue member's value (the promotion set holds the best seen so far) and the
promotion set is non-empty, that ordering still holds after `add_organism`. -/
theorem add_organism_epa_invariant (p : Pool) (org : Organism) (vals : ℕ → ℚ)
    (p2 : Pool) (hne : p.promotion_set ≠ [])
    (hinv : ∀ a ∈ p.promotion_set, ∀ q ∈ p.queue, a.value ≤ q.value)
    (h : p.add_organism org .epa vals = some p2) :
    ∀ a ∈ p2.promotion_set, ∀ q ∈ p2.queue, a.value ≤ q.value := by
  simp only [Pool.add_organism] at h
  set p1 : Pool := { p with num_adds := p.num_adds + 1 } with hp1
  have hps1 : p1.promotion_set = p.promotion_set := rfl
  have hq1 : p1.queue = p.queue := rfl
  cases hw : p1.get_worst_in_promotion_set with
  | none =>
    rw [get_worst_in_promotion_set_eq_none] at hw
    exact absurd (hps1 ▸ hw) hne
  | some worst =>
    obtain ⟨hwmem, hwmax⟩ := get_worst_in_promotion_set_spec p1 worst hw
    rw [hps1] at hwmem hwmax
    rw [hw] at h
    set org1 : Organism := { org with value := org.epa, is_active := true }
      with horg1
    have horgv : org1.value = org.epa := rfl
    split at h
    case h_1 heq => cases heq
    case h_2 worst2 heq =>
      have hww : worst2 = worst := by
        rw [Option.some.injEq] at heq
        exact heq.symm
      rw [hww] at h
      by_cases hlt : org.epa < worst.value
      · rw [if_pos hlt] at h
        have hp2 := (Option.some.injEq _ _).mp h
        subst hp2
        intro a ha q hq
        have ha2 : a ∈ p.promotion_set ++ [org1] := List.mem_of_mem_erase ha
        have haw : a.value ≤ worst.value := by
          rcases List.mem_append.mp ha2 with h1 | h1
          · exact hwmax a h1
          · rw [List.mem_singleton.mp h1, horgv]
            exact le_of_lt hlt
        rcases List.mem_cons.mp hq with h1 | h1
        · rw [h1]; exact haw
        · exact le_trans haw (hinv worst hwmem q h1)
      · rw [if_neg hlt] at h
        have hp2 := (Option.some.injEq _ _).mp h
        subst hp2
        intro a ha q hq
        rcases List.mem_cons.mp hq with h1 | h1
        · rw [h1, horgv]
          exact le_trans (hwmax a ha) (le_of_not_lt hlt)
        · exact hinv a ha q h1

def w6org1 : Organism := ⟨1, 1, 1, 0, 0, 0, true⟩

def w6org2 : Organism := ⟨2, 2, 2, 0, 0, 0, true⟩

def w6new : Organism := ⟨3, 0, 0, 0, 0, 0, false⟩

def w6pool : Pool := ⟨20, 1, [w6org1], [w6org2], ⟨20, 1⟩, 0⟩

/-- The pool produced by the C6 witness call. -/
def w6poolOut : Pool :=
  ⟨20, 1, [⟨3, 0, 0, 0, 0, 0, true⟩], [w6org1, w6org2], ⟨20, 1⟩, 1⟩

theorem add_organism_epa_invariant_witness :
    decide (∀ a ∈ w6poolOut.promotion_set, ∀ q ∈ w6poolOut.queue,
      a.value ≤ q.value) = true :=
  decide_eq_true (add_organism_epa_invariant w6pool w6new (fun _ => 0)
    w6poolOut (by decide) (by decide) (by decide))

/-- C10: when `n` exceeds the pool occupancy `m`, the negative slice start in
`get_n_best_organisms` does not clamp to the whole pool: the result is the
suffix of the descending sort from index `2*m - n`, so it has only
`min (n - m, m)` organisms (the smallest-value ones); only for `n > 2*m` does
it return all `m`. -/
theorem get_n_best_organisms_overflow (p : Pool) (n : ℕ)
    (h : p.to_list.length < n) :
    p.get_n_best_organisms n =
      (sortByValueDesc p.to_list).drop (2 * p.to_list.length - n) ∧
    (p.get_n_best_organisms n).length =
      min (n - p.to_list.length) p.to_list.length ∧
    (∀ x ∈ p.get_n_best_organisms n,
      ∀ y ∈ (sortByValueDesc p.to_list).take (2 * p.to_list.length - n),
        x.value ≤ y.value) ∧
    (2 * p.to_list.length < n →
      ∀ x : Organism, x ∈ p.get_n_best_organisms n ↔ x ∈ p.to_list) := by
  have hlen : (sortByValueDesc p.to_list).length = p.to_list.length :=
    (sortByValueDesc_perm p.to_list).length_eq
  have heq : p.get_n_best_organisms n =
      (sortByValueDesc p.to_list).drop (2 * p.to_list.length - n) := by
    simp only [Pool.get_n_best_organisms, pySliceFrom, hlen]
    rw [if_pos (by omega : ((p.to_list.length : ℤ) - (n : ℤ)) < 0)]
    congr 1
    omega
  refine ⟨heq, ?_, ?_, ?_⟩
  · rw [heq, List.length_drop, hlen]
    omega
  · intro x hx y hy
    rw [heq] at hx
    have hsorted := sortByValueDesc_pairwise p.to_list
    have hsplit := List.take_append_drop (2 * p.to_list.length - n)
      (sortByValueDesc p.to_list)
    rw [← hsplit, List.pairwise_append] at hsorted
    exact hsorted.2.2 y hy x hx
  · intro h2 x
    have hz : 2 * p.to_list.length - n = 0 := by omega
    rw [heq, hz, List.drop_zero]
    exact (sortByValueDesc_perm p.to_list).mem_iff

def w10org1 : Organism := ⟨1, 5, 5, 0, 0, 0, true⟩

def w10org2 : Organism := ⟨2, 3, 3, 0, 0, 0, true⟩

def w10pool : Pool := ⟨20, 3, [w10org1], [w10org2], ⟨20, 1⟩, 0⟩

theorem get_n_best_organisms_overflow_witness :
    decide (w10pool.get_n_best_organisms 3 =
      (sortByValueDesc w10pool.to_list).drop
        (2 * w10pool.to_list.length - 3)) = true ∧
    decide ((w10pool.get_n_best_organisms 3).length =
      min (3 - w10pool.to_list.length) w10pool.to_list.length) = true ∧
    w10org2.value ≤ w10org1.value := by
  have h := get_n_best_organisms_overflow w10pool 3 (by decide)
  exact ⟨decide_eq_true h.1, decide_eq_true h.2.1,
    h.2.2.1 w10org2 (by decide) w10org1 (by decide)⟩

theorem pairwise_head_rel {α : Type} {R : α → α → Prop} {l : List α} {w : α}
    (hp : l.Pairwise R) (hw : l.head? = some w) :
    ∀ v ∈ l, v = w ∨ R w v := by
  cases l with
  | nil => cases hw
  | cons a t =>
    rw [List.head?_cons, Option.some.injEq] at hw
    subst hw
    rw [List.pairwise_cons] at hp
    intro v hv
    rcases List.mem_cons.mp hv with h | h
    · exact Or.inl h
    · exact Or.inr (hp.1 v h)

theorem pairwise_getLast_rel {α : Type} {R : α → α → Prop} {l : List α} {b : α}
    (hp : l.Pairwise R) (hb : l.getLast? = some b) :
    ∀ v ∈ l, v = b ∨ R v b := by
  induction l with
  | nil => cases hb
  | cons a t ih =>
    rw [List.pairwise_cons] at hp
    cases t with
    | nil =>
      have hab : a = b := by
        rw [List.getLast?_singleton, Option.some.injEq] at hb
        exact hb
      subst hab
      intro v hv
      exact Or.inl (List.mem_singleton.mp hv)
    | cons c u =>
      rw [List.getLast?_cons_cons] at hb
      intro v hv
      rcases List.mem_cons.mp hv with h | h
      · have hbmem : b ∈ c :: u := List.mem_of_mem_getLast? hb
        exact Or.inr (h ▸ hp.1 b hbmem)
      · exact ih hp.2 hb v h

theorem best_organisms_eq_drop (p : Pool) :
    ∃ k, p.best_organisms = (sortByValueDesc p.to_list).drop k := by
  unfold Pool.best_organisms Pool.get_n_best_organisms pySliceFrom
  by_cases h1 : p.selection.num_parents < p.size
  · rw [if_pos h1]
    by_cases h2 : ((sortByValueDesc p.to_list).length : ℤ) -
        ((p.selection.num_parents + 1 : ℕ) : ℤ) < 0
    · exact ⟨_, if_pos h2⟩
    · exact ⟨_, if_neg h2⟩
  · rw [if_neg h1]
    by_cases h2 : ((sortByValueDesc p.to_list).length : ℤ) -
        ((p.size : ℕ) : ℤ) < 0
    · exact ⟨_, if_pos h2⟩
    · exact ⟨_, if_neg h2⟩

/-- C3: whenever the reference subset of `compute_fitnesses` is non-empty and
its best value equals its worst value, the fitness formula's denominator
`best - worst` is zero: the guarded division branch (a ZeroDivisionError in
the source) is reached. -/
theorem compute_fitnesses_division_by_zero (p : Pool) (b w : Organism)
    (hb : p.best_organisms.getLast? = some b)
    (hw : p.best_organisms.head? = some w)
    (hbw : b.value = w.value) :
    p.compute_fitnesses = none := by
  simp only [Pool.compute_fitnesses, hb, hw]
  rw [if_pos hbw]

def w3org1 : Organism := ⟨1, 1, 1, 0, 0, 0, true⟩

def w3org2 : Organism := ⟨2, 1, 1, 0, 0, 0, true⟩

def w3pool : Pool := ⟨20, 3, [w3org1], [w3org2], ⟨20, 1⟩, 0⟩

theorem compute_fitnesses_division_by_zero_witness :
    w3pool.compute_fitnesses = none :=
  compute_fitnesses_division_by_zero w3pool w3org2 w3org1
    (by decide) (by decide) (by decide)

/-- C2: when the reference subset's extreme values differ, `compute_fitnesses`
succeeds, every organism's fitness lies in `[0, 1]`, organisms at the subset's
smallest value get fitness exactly 1, organisms at the subset's largest value
get fitness exactly 0, and every organism outside the subset gets fitness 0. -/
theorem compute_fitnesses_correct (p : Pool) (b w : Organism)
    (hb : p.best_organisms.getLast? = some b)
    (hw : p.best_organisms.head? = some w)
    (hbw : b.value ≠ w.value) :
    ∃ p2, p.compute_fitnesses = some p2 ∧
      (∀ o ∈ p2.to_list, 0 ≤ o.fitness ∧ o.fitness ≤ 1) ∧
      (∀ o ∈ p2.to_list, o.value = b.value → o.fitness = 1) ∧
      (∀ o ∈ p2.to_list, o.value = w.value → o.fitness = 0) ∧
      (∀ o ∈ p2.to_list, o.id ∉ p.best_organisms.map Organism.id →
        o.fitness = 0) := by
  obtain ⟨k, hk⟩ := best_organisms_eq_drop p
  have hsorted := sortByValueDesc_pairwise p.to_list
  have hsub : p.best_organisms.Pairwise (fun a c => c.value ≤ a.value) := by
    rw [hk]
    exact List.Pairwise.sublist (List.drop_sublist k _) hsorted
  have hble : ∀ v ∈ p.best_organisms, b.value ≤ v.value := by
    intro v hv
    rcases pairwise_getLast_rel hsub hb v hv with h | h
    · rw [h]
    · exact h
  have hwge : ∀ v ∈ p.best_organisms, v.value ≤ w.value := by
    intro v hv
    rcases pairwise_head_rel hsub hw v hv with h | h
    · rw [h]
    · exact h
  have hbmem : b ∈ p.best_organisms := List.mem_of_mem_getLast? hb
  have hwmem : w ∈ p.best_organisms := List.mem_of_mem_head? hw
  have hblt : b.value < w.value := lt_of_le_of_ne (hwge b hbmem) hbw
  have houtside : ∀ x ∈ p.to_list, x ∉ p.best_organisms →
      w.value ≤ x.value := by
    intro x hx hnx
    have hxs : x ∈ sortByValueDesc p.to_list :=
      (sortByValueDesc_perm p.to_list).mem_iff.mpr hx
    rw [← List.take_append_drop k (sortByValueDesc p.to_list)] at hxs
    rcases List.mem_append.mp hxs with h | h
    · have hsp := hsorted
      rw [← List.take_append_drop k (sortByValueDesc p.to_list),
        List.pairwise_append] at hsp
      have := hsp.2.2 x h w (hk ▸ hwmem)
      exact this
    · exact absurd (hk ▸ h) hnx
  set upd := fun (o : Organism) =>
    if o ∈ p.best_organisms then
      { o with fitness := (o.value - w.value) / (b.value - w.value) }
    else
      { o with fitness := 0 } with hupd
  have hres : p.compute_fitnesses =
      some { p with promotion_set := p.promotion_set.map upd,
                    queue := p.queue.map upd } := by
    simp only [Pool.compute_fitnesses, hb, hw]
    rw [if_neg hbw]
  have hfit_mem : ∀ o, o ∈ p.best_organisms →
      (upd o).fitness = (o.value - w.value) / (b.value - w.value) := by
    intro o hm
    simp [hupd, hm]
  have hfit_out : ∀ o, o ∉ p.best_organisms → (upd o).fitness = 0 := by
    intro o hm
    simp [hupd, hm]
  have hval_upd : ∀ o, (upd o).value = o.value := by
    intro o
    by_cases hm : o ∈ p.best_organisms <;> simp [hupd, hm]
  have hid_upd : ∀ o, (upd o).id = o.id := by
    intro o
    by_cases hm : o ∈ p.best_organisms <;> simp [hupd, hm]
  have hto : ({ p with
                promotion_set := p.promotion_set.map upd,
                queue := p.queue.map upd } : Pool).to_list =
      p.to_list.map upd := by
    simp [Pool.to_list]
  have hflip : ∀ v : ℚ, (v - w.value) / (b.value - w.value) =
      (w.value - v) / (w.value - b.value) := by
    intro v
    rw [← neg_div_neg_eq (w.value - v) (w.value - b.value), neg_sub, neg_sub]
  refine ⟨_, hres, ?_, ?_, ?_, ?_⟩
  · intro o2 ho2
    rw [hto] at ho2
    obtain ⟨o, ho, rfl⟩ := List.mem_map.mp ho2
    by_cases hmem : o ∈ p.best_organisms
    · rw [hfit_mem o hmem, hflip]
      constructor
      · exact div_nonneg (sub_nonneg.mpr (hwge o hmem))
          (le_of_lt (sub_pos.mpr hblt))
      · exact (div_le_one (sub_pos.mpr hblt)).mpr
          (sub_le_sub_left (hble o hmem) w.value)
    · rw [hfit_out o hmem]
      exact ⟨le_refl 0, zero_le_one⟩
  · intro o2 ho2 hv
    rw [hto] at ho2
    obtain ⟨o, ho, rfl⟩ := List.mem_map.mp ho2
    rw [hval_upd] at hv
    by_cases hmem : o ∈ p.best_organisms
    · rw [hfit_mem o hmem, hv]
      exact div_self (sub_ne_zero.mpr hbw)
    · have hge := houtside o ho hmem
      rw [hv] at hge
      exact absurd hblt (not_lt_of_le hge)
  · intro o2 ho2 hv
    rw [hto] at ho2
    obtain ⟨o, ho, rfl⟩ := List.mem_map.mp ho2
    rw [hval_upd] at hv
    by_cases hmem : o ∈ p.best_organisms
    · rw [hfit_mem o hmem, hv, sub_self, zero_div]
    · exact hfit_out o hmem
  · intro o2 ho2 hid
    rw [hto] at ho2
    obtain ⟨o, ho, rfl⟩ := List.mem_map.mp ho2
    by_cases hmem : o ∈ p.best_organisms
    · rw [hid_upd] at hid
      exact absurd (List.mem_map_of_mem Organism.id hmem) hid
    · exact hfit_out o hmem

def w2org1 : Organism := ⟨1, 1, 1, 0, 0, 0, true⟩

def w2org2 : Organism := ⟨2, 2, 2, 0, 0, 0, true⟩

def w2pool : Pool := ⟨2, 1, [w2org1], [w2org2], ⟨2, 1⟩, 0⟩

theorem compute_fitnesses_correct_witness :
    (w2pool.compute_fitnesses).isSome = true := by
  obtain ⟨p2, hp2, _⟩ := compute_fitnesses_correct w2pool w2org1 w2org2
    (by decide) (by decide) (by decide)
  rw [hp2]
  rfl

theorem check_promotion_set_pd_to_list_perm (p : Pool) :
    (p.check_promotion_set_pd).to_list.Perm p.to_list := by
  unfold Pool.check_promotion_set_pd Pool.to_list
  simp only []
  set P := fun o : Organism => decide (0 < o.value) with hP
  set E := fun o : Organism => decide (o.value < pdEps) with hE
  set demoted := p.promotion_set.filter P with hdem
  set q1 := demoted.reverse ++ p.queue with hq1
  rw [List.append_assoc]
  refine List.Perm.trans
    (List.Perm.append_left _ (List.filter_append_perm E q1)) ?_
  rw [hq1]
  refine List.Perm.trans
    (List.Perm.append_left _
      (List.Perm.append_right p.queue demoted.reverse_perm)) ?_
  rw [← List.append_assoc]
  exact List.Perm.append_right p.queue
    ((List.perm_append_comm).trans (List.filter_append_perm P _))

theorem pdEps_pos : (0 : ℚ) < pdEps := by
  norm_num [pdEps]

theorem check_promotion_set_pd_establishes (p : Pool) :
    pdInvariant p.check_promotion_set_pd := by
  unfold Pool.check_promotion_set_pd pdInvariant
  constructor
  · intro o ho
    rcases List.mem_append.mp ho with h | h
    · have hp := List.of_mem_filter h
      simp only [Bool.not_eq_eq_eq_not, Bool.not_true, decide_eq_false_iff_not,
        not_lt] at hp
      exact lt_of_le_of_lt hp pdEps_pos
    · have hp := List.of_mem_filter h
      simpa using hp
  · intro o ho
    have hp := List.of_mem_filter ho
    simp only [Bool.not_eq_eq_eq_not, Bool.not_true, decide_eq_false_iff_not,
      not_lt] at hp
    exact hp

theorem add_organism_pd_invariant (p : Pool) (org : Organism) (vals : ℕ → ℚ)
    (p2 : Pool) (hinv : pdInvariant p)
    (h : p.add_organism org .pd vals = some p2)
    (hv : vals org.id = 0 ∨ pdEps ≤ vals org.id) :
    pdInvariant p2 := by
  simp only [Pool.add_organism] at h
  obtain ⟨hcps, hcq⟩ := check_promotion_set_pd_establishes
    (setPdValues vals { p with num_adds := p.num_adds + 1 })
  split at h
  case isTrue hz =>
    rw [Option.some.injEq] at h
    subst h
    constructor
    · intro o ho
      rcases List.mem_append.mp ho with h1 | h1
      · exact hcps o h1
      · rw [List.mem_singleton.mp h1]
        rw [hz]
        exact pdEps_pos
    · exact hcq
  case isFalse hz =>
    rw [Option.some.injEq] at h
    subst h
    rcases hv with hv0 | hveps
    · exact absurd hv0 hz
    · constructor
      · exact hcps
      · intro o ho
        rcases List.mem_cons.mp ho with h1 | h1
        · rw [h1]
          exact hveps
        · exact hcq o h1

theorem replace_organism_pd_invariant (p : Pool) (old_org new_org : Organism)
    (vals : ℕ → ℚ) (hinv : pdInvariant p) :
    pdInvariant (p.replace_organism old_org new_org .pd vals).pool := by
  show pdInvariant (Pool.check_promotion_set_pd _)
  exact check_promotion_set_pd_establishes _

theorem mem_assignSelectionLocs (power : ℕ) (denom : ℚ) (l : List Organism) :
    ∀ (loc : ℚ) (x : Organism), x ∈ assignSelectionLocs power denom loc l →
      ∃ y ∈ l, x.id = y.id ∧ x.value = y.value ∧ x.fitness = y.fitness := by
  induction l with
  | nil => intro loc x hx; cases hx
  | cons o rest ih =>
    intro loc x hx
    rcases List.mem_cons.mp hx with h | h
    · exact ⟨o, List.mem_cons_self o rest, by rw [h], by rw [h], by rw [h]⟩
    · obtain ⟨y, hy, hids⟩ := ih _ x h
      exact ⟨y, List.mem_cons_of_mem o hy, hids⟩

theorem lookupById_id (assigned : List Organism) (o : Organism) :
    (lookupById assigned o).id = o.id := by
  unfold lookupById
  cases hf : assigned.find? (fun a => a.id == o.id) with
  | none => rfl
  | some a =>
    have hp := List.find?_some hf
    rw [Option.getD_some]
    exact beq_iff_eq.mp hp

theorem lookupById_mem_or (assigned : List Organism) (o : Organism) :
    lookupById assigned o ∈ assigned ∨ lookupById assigned o = o := by
  unfold lookupById
  cases hf : assigned.find? (fun a => a.id == o.id) with
  | none => exact Or.inr rfl
  | some a =>
    rw [Option.getD_some]
    exact Or.inl (List.mem_of_find?_eq_some hf)

theorem map_lookupById_value_pred (vals : ℕ → ℚ) (assigned l : List Organism)
    (hassigned : ∀ x ∈ assigned, x.value = vals x.id)
    (hl : ∀ o ∈ l, o.value = vals o.id) :
    ∀ o2 ∈ l.map (lookupById assigned),
      ∃ o ∈ l, o2.id = o.id ∧ o2.value = vals o2.id := by
  intro o2 ho2
  obtain ⟨o, ho, rfl⟩ := List.mem_map.mp ho2
  refine ⟨o, ho, lookupById_id assigned o, ?_⟩
  rcases lookupById_mem_or assigned o with hm | he
  · exact hassigned _ hm
  · rw [he]
    exact hl o ho

theorem compute_selection_probs_value_pred (vals : ℕ → ℚ) (p p2 : Pool)
    (hall : ∀ o ∈ p.to_list, o.value = vals o.id)
    (h : p.compute_selection_probs = some p2) :
    (∀ o2 ∈ p2.promotion_set, ∃ o ∈ p.promotion_set,
      o2.id = o.id ∧ o2.value = vals o2.id) ∧
    (∀ o2 ∈ p2.queue, ∃ o ∈ p.queue,
      o2.id = o.id ∧ o2.value = vals o2.id) := by
  simp only [Pool.compute_selection_probs] at h
  split at h
  case isTrue => cases h
  case isFalse hd =>
    rw [Option.some.injEq] at h
    subst h
    have hassigned : ∀ x ∈ assignSelectionLocs p.selection.power
        ((sortByFitnessAsc p.to_list).foldl
          (fun d o => d + o.fitness ^ p.selection.power) 0) 0
        (sortByFitnessAsc p.to_list), x.value = vals x.id := by
      intro x hx
      obtain ⟨y, hy, hid, hval, _⟩ := mem_assignSelectionLocs _ _ _ _ x hx
      have hy2 : y ∈ p.to_list := (sortByFitnessAsc_perm p.to_list).mem_iff.mp hy
      rw [hval, hid]
      exact hall y hy2
    constructor
    · exact map_lookupById_value_pred vals _ _ hassigned
        (fun o ho => hall o (List.mem_append_left _ ho))
    · exact map_lookupById_value_pred vals _ _ hassigned
        (fun o ho => hall o (List.mem_append_right _ ho))

theorem compute_fitnesses_mem_value (p p2 : Pool)
    (h : p.compute_fitnesses = some p2) :
    (∀ o2 ∈ p2.promotion_set, ∃ o ∈ p.promotion_set,
      o2.value = o.value ∧ o2.id = o.id) ∧
    (∀ o2 ∈ p2.queue, ∃ o ∈ p.queue, o2.value = o.value ∧ o2.id = o.id) := by
  simp only [Pool.compute_fitnesses] at h
  split at h
  case h_1 b w heq1 heq2 =>
    split at h
    case isTrue => cases h
    case isFalse hbw =>
      rw [Option.some.injEq] at h
      subst h
      constructor <;>
      · intro o2 ho2
        obtain ⟨o, ho, rfl⟩ := List.mem_map.mp ho2
        refine ⟨o, ho, ?_, ?_⟩ <;>
          by_cases hm : o ∈ p.best_organisms <;> simp [hm]
  case h_2 => cases h

theorem add_initial_population_pd_invariant (p : Pool)
    (initial_population : List Organism) (vals : ℕ → ℚ) (p2 : Pool)
    (hps : p.promotion_set = []) (hq : p.queue = [])
    (h : p.add_initial_population initial_population .pd vals = some p2) :
    pdInvariant p2 := by
  simp only [Pool.add_initial_population, hps, hq, List.nil_append,
    List.append_nil] at h
  split at h
  case h_1 => cases h
  case h_2 p2a heq =>
    set organisms_list :=
      initial_population.map (fun o => { o with value := vals o.id })
      with horgs
    set p1 : Pool := { p with
      promotion_set := organisms_list.filter (fun o => decide (o.value < pdEps)),
      queue := (organisms_list.filter (fun o => !decide (o.value < pdEps))).reverse }
      with hp1
    have horgv : ∀ o ∈ organisms_list, o.value = vals o.id := by
      intro o ho
      obtain ⟨orig, _, rfl⟩ := List.mem_map.mp ho
      rfl
    have hp1ps : ∀ o ∈ p1.promotion_set, o.value < pdEps ∧ o.value = vals o.id := by
      intro o ho
      have hf := List.of_mem_filter ho
      have hm := List.mem_of_mem_filter ho
      exact ⟨of_decide_eq_true hf, horgv o hm⟩
    have hp1q : ∀ o ∈ p1.queue, pdEps ≤ o.value ∧ o.value = vals o.id := by
      intro o ho
      rw [List.mem_reverse] at ho
      have hf := List.of_mem_filter ho
      have hm := List.mem_of_mem_filter ho
      simp only [Bool.not_eq_eq_eq_not, Bool.not_true,
        decide_eq_false_iff_not, not_lt] at hf
      exact ⟨hf, horgv o hm⟩
    obtain ⟨hfp, hfq⟩ := compute_fitnesses_mem_value p1 p2a heq
    have hall2 : ∀ o ∈ p2a.to_list, o.value = vals o.id := by
      intro o ho
      rcases List.mem_append.mp ho with h1 | h1
      · obtain ⟨o1, ho1, hval, hid⟩ := hfp o h1
        rw [hval, hid]
        exact (hp1ps o1 ho1).2
      · obtain ⟨o1, ho1, hval, hid⟩ := hfq o h1
        rw [hval, hid]
        exact (hp1q o1 ho1).2
    obtain ⟨hsp, hsq⟩ := compute_selection_probs_value_pred vals p2a p2 hall2 h
    constructor
    · intro o3 ho3
      obtain ⟨o2, ho2, hid3, hval3⟩ := hsp o3 ho3
      obtain ⟨o1, ho1, hval2, hid2⟩ := hfp o2 ho2
      rw [hval3, hid3, hid2, ← (hp1ps o1 ho1).2]
      exact (hp1ps o1 ho1).1
    · intro o3 ho3
      obtain ⟨o2, ho2, hid3, hval3⟩ := hsq o3 ho3
      obtain ⟨o1, ho1, hval2, hid2⟩ := hfq o2 ho2
      rw [hval3, hid3, hid2, ← (hp1q o1 ho1).2]
      exact (hp1q o1 ho1).1

def c1pool0 : Pool := ⟨25, 3, [], [], ⟨25, 1⟩, 0⟩

def c1org : Organism := ⟨1, 0, 0, 0, 0, 0, false⟩

/-- A hull valuation placing the new organism strictly between `0` and the
`0.000000001` threshold. -/
def c1vals : ℕ → ℚ := fun _ => 1 / 2000000000

/-- The organism as it lands in the queue: active, `value = 1/2000000000`. -/
def c1orgOut : Organism := ⟨1, 0, 1 / 2000000000, 0, 0, 0, true⟩

def c1poolOut : Pool := ⟨25, 3, [], [c1orgOut], ⟨25, 1⟩, 1⟩

/-- C1 counterexample: adding an organism whose recomputed hull distance lies
strictly between `0` and `0.000000001` to a pd pool satisfying the invariant
puts it in the queue with `value < 0.000000001` (the placement test is
`value == 0.0`), so the claimed queue bound fails after `add_organism`. -/
theorem pool_pd_invariant_counterexample :
    pdInvariant c1pool0 ∧
    c1pool0.add_organism c1org .pd c1vals = some c1poolOut ∧
    ¬ (∀ o ∈ c1poolOut.queue, pdEps ≤ o.value) := by
  have hvz : ¬ (c1vals 1 = 0) := by norm_num [c1vals]
  have hve : ¬ (pdEps ≤ c1vals 1) := by norm_num [pdEps, c1vals]
  refine ⟨by decide, ?_, ?_⟩
  · simp only [Pool.add_organism]
    rw [if_neg (show ¬ (c1vals ({ c1org with is_active := true } :
      Organism).id = 0) from hvz)]
    rfl
  · intro hall
    exact hve (hall c1orgOut (List.mem_singleton_self _))

/-- C1 (amended): the pd membership invariant — every promotion-set organism
has `value < 0.000000001` and every queue organism `value ≥ 0.000000001` —
holds after `replace_organism`, after `add_initial_population` on an empty
pool (its documented precondition), and after `add_organism` provided the new
organism's recomputed value is either exactly `0` or at least `0.000000001`
(the source places the newcomer by the test `value == 0.0`, so a value
strictly between `0` and the threshold lands in the queue and breaks the
bound). -/
theorem pool_pd_membership_invariant :
    (∀ (p : Pool) (org : Organism) (vals : ℕ → ℚ) (p2 : Pool),
      pdInvariant p → p.add_organism org .pd vals = some p2 →
      (vals org.id = 0 ∨ pdEps ≤ vals org.id) → pdInvariant p2) ∧
    (∀ (p : Pool) (old_org new_org : Organism) (vals : ℕ → ℚ),
      pdInvariant p →
      pdInvariant (p.replace_organism old_org new_org .pd vals).pool) ∧
    (∀ (p : Pool) (initial_population : List Organism) (vals : ℕ → ℚ)
      (p2 : Pool), p.promotion_set = [] → p.queue = [] →
      p.add_initial_population initial_population .pd vals = some p2 →
      pdInvariant p2) :=
  ⟨add_organism_pd_invariant, replace_organism_pd_invariant,
    add_initial_population_pd_invariant⟩

def w1pool0 : Pool := ⟨25, 3, [], [], ⟨25, 1⟩, 0⟩

def w1orgA : Organism := ⟨1, 0, 0, 0, 0, 0, false⟩

def w1valsA : ℕ → ℚ := fun _ => 0

def w1poolA : Pool := (w1pool0.add_organism w1orgA .pd w1valsA).getD w1pool0

def w1orgsC : List Organism :=
  [⟨1, 0, 0, 0, 0, 0, true⟩, ⟨2, 0, 0, 0, 0, 0, true⟩]

def w1valsC : ℕ → ℚ := fun i => if i = 1 then 0 else 1

def w1poolC0 : Pool := ⟨2, 3, [], [], ⟨2, 1⟩, 0⟩

def w1poolC : Pool :=
  (w1poolC0.add_initial_population w1orgsC .pd w1valsC).getD w1poolC0

theorem pool_pd_membership_invariant_witness :
    decide (pdInvariant w1poolA) = true ∧
    decide (pdInvariant
      (w1pool0.replace_organism w1orgA w1orgA .pd w1valsA).pool) = true ∧
    decide (pdInvariant w1poolC) = true :=
  ⟨decide_eq_true (pool_pd_membership_invariant.1 w1pool0 w1orgA w1valsA
      w1poolA (by decide) (by with_unfolding_all decide) (Or.inl rfl)),
   decide_eq_true (pool_pd_membership_invariant.2.1 w1pool0 w1orgA w1orgA
      w1valsA (by decide)),
   decide_eq_true (pool_pd_membership_invariant.2.2 w1poolC0 w1orgsC w1valsC
      w1poolC rfl rfl (by with_unfolding_all decide))⟩

/-- The invariant carried through one scan of the pool by
`select_organisms`: intermediate (`inl`) states are duplicate-free subsets of
the pool, and an early return (`inr`) additionally has exactly `n`
organisms. -/
def selOk (pool_list : List Organism) (n : ℕ) :
    List Organism ⊕ List Organism → Prop
  | Sum.inl s => s.Nodup ∧ ∀ o ∈ s, o ∈ pool_list
  | Sum.inr r => r.length = n ∧ r.Nodup ∧ ∀ o ∈ r, o ∈ pool_list

theorem scanPool_ok (n : ℕ) (rand : ℚ) (pool_list : List Organism) :
    ∀ (l selected : List Organism), (∀ o ∈ l, o ∈ pool_list) →
      selected.Nodup → (∀ o ∈ selected, o ∈ pool_list) →
      selOk pool_list n (scanPool n rand selected l) := by
  intro l
  induction l with
  | nil =>
    intro selected _ hnd hsub
    exact ⟨hnd, hsub⟩
  | cons o rest ih =>
    intro selected hl hnd hsub
    have hrest : ∀ x ∈ rest, x ∈ pool_list :=
      fun x hx => hl x (List.mem_cons_of_mem o hx)
    have ho : o ∈ pool_list := hl o (List.mem_cons_self o rest)
    simp only [scanPool]
    by_cases hin : o.selection_loc ≤ rand ∧
        rand < o.selection_loc + o.selection_prob
    · rw [if_pos hin]
      by_cases hsel : o ∈ selected
      · rw [if_pos hsel]
        exact ih selected hrest hnd hsub
      · rw [if_neg hsel]
        have hnd1 : (selected ++ [o]).Nodup := by
          rw [List.nodup_append]
          exact ⟨hnd, List.nodup_singleton o,
            fun a ha hb => hsel ((List.mem_singleton.mp hb) ▸ ha)⟩
        have hsub1 : ∀ x ∈ selected ++ [o], x ∈ pool_list := by
          intro x hx
          rcases List.mem_append.mp hx with h1 | h1
          · exact hsub x h1
          · rw [List.mem_singleton.mp h1]
            exact ho
        by_cases hlen : (selected ++ [o]).length = n
        · rw [if_pos hlen]
          exact ⟨hlen, hnd1, hsub1⟩
        · rw [if_neg hlen]
          exact ih _ hrest hnd1 hsub1
    · rw [if_neg hin]
      exact ih selected hrest hnd hsub

theorem selectLoop_spec (n : ℕ) (pool_list : List Organism) :
    ∀ (draws : List ℚ) (selected result : List Organism),
      selected.Nodup → (∀ o ∈ selected, o ∈ pool_list) →
      selectLoop n pool_list selected draws = some result →
      result.length = n ∧ result.Nodup ∧ ∀ o ∈ result, o ∈ pool_list := by
  intro draws
  induction draws with
  | nil =>
    intro selected result _ _ h
    cases h
  | cons r rs ih =>
    intro selected result hnd hsub h
    simp only [selectLoop] at h
    have hok := scanPool_ok n r pool_list pool_list selected
      (fun x hx => hx) hnd hsub
    cases hscan : scanPool n r selected pool_list with
    | inr res =>
      rw [hscan] at h hok
      rw [Option.some.injEq] at h
      subst h
      exact hok
    | inl s1 =>
      rw [hscan] at h hok
      exact ih s1 result hok.1 hok.2 h

/-- C5: whenever `select_organisms` returns (for any pool state, any `n`, and
any sequence of random draws on which the source's `while True` loop would
terminate), the returned list has exactly `n` organisms, they are pairwise
distinct, and each one is a member of the pool listing. -/
theorem select_organisms_spec (p : Pool) (n : ℕ) (draws : List ℚ)
    (result : List Organism)
    (h : p.select_organisms n draws = some result) :
    result.length = n ∧ result.Nodup ∧ ∀ o ∈ result, o ∈ p.to_list :=
  selectLoop_spec n p.to_list draws [] result List.nodup_nil
    (fun o ho => absurd ho (List.not_mem_nil o)) h

def w5org1 : Organism := ⟨1, 0, 0, 1, 1/2, 0, true⟩

def w5org2 : Organism := ⟨2, 0, 0, 1, 1/2, 1/2, true⟩

def w5pool : Pool := ⟨20, 3, [w5org1], [w5org2], ⟨20, 1⟩, 0⟩

def w5result : List Organism :=
  (w5pool.select_organisms 2 [1/4, 3/4]).getD []

theorem select_organisms_spec_witness :
    decide (w5result.length = 2 ∧ w5result.Nodup ∧
      ∀ o ∈ w5result, o ∈ w5pool.to_list) = true :=
  decide_eq_true (select_organisms_spec w5pool 2 [1/4, 3/4] w5result
    (by with_unfolding_all decide))

theorem map_id_of_preserve (f : Organism → Organism)
    (hf : ∀ o, (f o).id = o.id) (l : List Organism) :
    (l.map f).map Organism.id = l.map Organism.id := by
  induction l with
  | nil => rfl
  | cons o t ih => simp [hf, ih]

theorem erase_ids_ne (a : Organism) :
    ∀ (l : List Organism), (l.map Organism.id).Nodup → a ∈ l →
      ∀ x ∈ l.erase a, x.id ≠ a.id := by
  intro l
  induction l with
  | nil => intro _ ha; cases ha
  | cons b t ih =>
    intro hnd ha x hx
    rw [List.map_cons, List.nodup_cons] at hnd
    by_cases hba : b = a
    · rw [List.erase_cons, if_pos (beq_iff_eq.mpr hba)] at hx
      intro hxa
      apply hnd.1
      rw [← hba] at hxa
      exact hxa ▸ List.mem_map_of_mem Organism.id hx
    · rw [List.erase_cons, if_neg (by
        intro hc
        exact hba (beq_iff_eq.mp hc))] at hx
      have hat : a ∈ t := by
        rcases List.mem_cons.mp ha with h | h
        · exact absurd h.symm hba
        · exact h
      rcases List.mem_cons.mp hx with h | h
      · rw [h]
        intro hca
        apply hnd.1
        rw [hca]
        exact List.mem_map_of_mem Organism.id hat
      · exact ih hnd.2 hat x h

theorem mem_replaceFirst_self (a b : Organism) :
    ∀ (l : List Organism), a ∈ l → b ∈ replaceFirst a b l := by
  intro l
  induction l with
  | nil => intro ha; cases ha
  | cons c t ih =>
    intro ha
    simp only [replaceFirst]
    by_cases hca : c = a
    · rw [if_pos hca]
      exact List.mem_cons_self b t
    · rw [if_neg hca]
      rcases List.mem_cons.mp ha with h | h
      · exact absurd h.symm hca
      · exact List.mem_cons_of_mem c (ih h)

theorem replaceFirst_ids_ne (a b : Organism) (hb : b.id ≠ a.id) :
    ∀ (l : List Organism), (l.map Organism.id).Nodup → a ∈ l →
      ∀ x ∈ replaceFirst a b l, x.id ≠ a.id := by
  intro l
  induction l with
  | nil => intro _ ha; cases ha
  | cons c t ih =>
    intro hnd ha x hx
    rw [List.map_cons, List.nodup_cons] at hnd
    simp only [replaceFirst] at hx
    by_cases hca : c = a
    · rw [if_pos hca] at hx
      rcases List.mem_cons.mp hx with h | h
      · rw [h]; exact hb
      · intro hxa
        apply hnd.1
        rw [← hca] at hxa
        exact hxa ▸ List.mem_map_of_mem Organism.id h
    · rw [if_neg hca] at hx
      have hat : a ∈ t := by
        rcases List.mem_cons.mp ha with h | h
        · exact absurd h.symm hca
        · exact h
      rcases List.mem_cons.mp hx with h | h
      · rw [h]
        intro hca2
        apply hnd.1
        rw [hca2]
        exact List.mem_map_of_mem Organism.id hat
      · exact ih hnd.2 hat x h

theorem replace_containers_spec (pv : Pool) (old1 new1 : Organism)
    (hnd : (pv.to_list.map Organism.id).Nodup)
    (hmem : old1 ∈ pv.to_list)
    (hne : new1.id ≠ old1.id) :
    new1 ∈ (if old1 ∈ pv.promotion_set then
        { pv with promotion_set := (pv.promotion_set.erase old1) ++ [new1] }
      else if old1 ∈ pv.queue then
        { pv with queue := replaceFirst old1 new1 pv.queue }
      else pv).to_list ∧
    ∀ o ∈ (if old1 ∈ pv.promotion_set then
        { pv with promotion_set := (pv.promotion_set.erase old1) ++ [new1] }
      else if old1 ∈ pv.queue then
        { pv with queue := replaceFirst old1 new1 pv.queue }
      else pv).to_list, o.id ≠ old1.id := by
  rw [Pool.to_list, List.map_append, List.nodup_append] at hnd
  obtain ⟨hndps, hndq, hdisj⟩ := hnd
  by_cases h1 : old1 ∈ pv.promotion_set
  · rw [if_pos h1]
    constructor
    · exact List.mem_append_left _
        (List.mem_append_right _ (List.mem_singleton_self new1))
    · intro o ho
      rcases List.mem_append.mp ho with h | h
      · rcases List.mem_append.mp h with h2 | h2
        · exact erase_ids_ne old1 pv.promotion_set hndps h1 o h2
        · rw [List.mem_singleton.mp h2]
          exact hne
      · intro hoid
        have h3 : o ∈ pv.queue := h
        exact hdisj (List.mem_map_of_mem Organism.id h1)
          (hoid ▸ List.mem_map_of_mem Organism.id h3)
  · have h2 : old1 ∈ pv.queue := by
      rcases List.mem_append.mp hmem with h | h
      · exact absurd h h1
      · exact h
    rw [if_neg h1, if_pos h2]
    constructor
    · exact List.mem_append_right _
        (mem_replaceFirst_self old1 new1 pv.queue h2)
    · intro o ho
      rcases List.mem_append.mp ho with h | h
      · intro hoid
        have h3 : o ∈ pv.promotion_set := h
        exact hdisj (hoid ▸ List.mem_map_of_mem Organism.id h3)
          (List.mem_map_of_mem Organism.id h2)
      · exact replaceFirst_ids_ne old1 new1 hne pv.queue hndq h2 o h

theorem setPdValues_to_list (vals : ℕ → ℚ) (p : Pool) :
    (setPdValues vals p).to_list =
      p.to_list.map (fun o => { o with value := vals o.id }) := by
  simp [setPdValues, Pool.to_list]

/-- C7: replacing a current pool member `old_org` (distinct from `new_org`,
with pool ids unique) puts `new_org` into the listing, removes every trace of
`old_org`, deactivates `old_org` and activates `new_org` — in both epa and pd
modes. -/
theorem replace_organism_roundtrip (p : Pool) (old_org new_org : Organism)
    (objective_function : ObjectiveFunction) (vals : ℕ → ℚ)
    (hmem : old_org ∈ p.to_list)
    (hnd : (p.to_list.map Organism.id).Nodup)
    (hne : new_org.id ≠ old_org.id) :
    (p.replace_organism old_org new_org objective_function vals).new_org ∈
      (p.replace_organism old_org new_org objective_function
        vals).pool.to_list ∧
    (∀ o ∈ (p.replace_organism old_org new_org objective_function
        vals).pool.to_list, o.id ≠ old_org.id) ∧
    (p.replace_organism old_org new_org objective_function
        vals).old_org.is_active = false ∧
    (p.replace_organism old_org new_org objective_function
        vals).new_org.is_active = true := by
  cases objective_function with
  | epa =>
    obtain ⟨hi, hii⟩ := replace_containers_spec p old_org
      { new_org with value := new_org.epa, is_active := true } hnd hmem hne
    refine ⟨hi, hii, ?_, ?_⟩
    · rfl
    · rfl
  | pd =>
    simp only [Pool.replace_organism]
    rw [if_pos hmem]
    have hnd_pv : ((setPdValues vals p).to_list.map Organism.id).Nodup := by
      rw [setPdValues_to_list,
        map_id_of_preserve (fun o => { o with value := vals o.id })
          (fun o => rfl) p.to_list]
      exact hnd
    have hmem_pv : ({ old_org with value := vals old_org.id } : Organism) ∈
        (setPdValues vals p).to_list := by
      rw [setPdValues_to_list]
      exact List.mem_map_of_mem _ hmem
    obtain ⟨hi, hii⟩ := replace_containers_spec (setPdValues vals p)
      { old_org with value := vals old_org.id }
      { new_org with value := vals new_org.id, is_active := true }
      hnd_pv hmem_pv hne
    refine ⟨?_, ?_, by trivial, by trivial⟩
    · exact (check_promotion_set_pd_to_list_perm _).mem_iff.mpr hi
    · intro o ho
      exact hii o ((check_promotion_set_pd_to_list_perm _).mem_iff.mp ho)

def w7old : Organism := ⟨1, 5, 5, 0, 0, 0, true⟩

def w7other : Organism := ⟨2, 7, 7, 0, 0, 0, true⟩

def w7new : Organism := ⟨3, 4, 0, 0, 0, 0, false⟩

def w7pool : Pool := ⟨20, 3, [w7old], [w7other], ⟨20, 1⟩, 0⟩

theorem replace_organism_roundtrip_witness :
    decide ((w7pool.replace_organism w7old w7new .epa (fun _ => 0)).new_org ∈
      (w7pool.replace_organism w7old w7new .epa (fun _ => 0)).pool.to_list ∧
      (∀ o ∈ (w7pool.replace_organism w7old w7new .epa
          (fun _ => 0)).pool.to_list, o.id ≠ w7old.id) ∧
      (w7pool.replace_organism w7old w7new .epa
          (fun _ => 0)).old_org.is_active = false ∧
      (w7pool.replace_organism w7old w7new .epa
          (fun _ => 0)).new_org.is_active = true) = true :=
  decide_eq_true (replace_organism_roundtrip w7pool w7old w7new .epa
    (fun _ => 0) (by decide) (by decide) (by decide))

theorem foldl_add_eq_sum (g : Organism → ℚ) :
    ∀ (l : List Organism) (c : ℚ),
      l.foldl (fun d o => d + g o) c = c + (l.map g).sum := by
  intro l
  induction l with
  | nil => intro c; simp
  | cons o t ih =>
    intro c
    rw [List.foldl_cons, ih (c + g o), List.map_cons, List.sum_cons, add_assoc]

theorem sum_map_div (g : Organism → ℚ) (denom : ℚ) :
    ∀ l : List Organism,
      (l.map (fun o => g o / denom)).sum = (l.map g).sum / denom := by
  intro l
  induction l with
  | nil => simp
  | cons o t ih => simp [ih, add_div]

theorem assignSelectionLocs_prob_sum (power : ℕ) (denom : ℚ) :
    ∀ (l : List Organism) (loc : ℚ),
      ((assignSelectionLocs power denom loc l).map
        Organism.selection_prob).sum =
      (l.map (fun o => o.fitness ^ power / denom)).sum := by
  intro l
  induction l with
  | nil => intro loc; rfl
  | cons o t ih =>
    intro loc
    simp only [assignSelectionLocs, List.map_cons, List.sum_cons, ih]

theorem assignSelectionLocs_map_id (power : ℕ) (denom : ℚ) :
    ∀ (l : List Organism) (loc : ℚ),
      (assignSelectionLocs power denom loc l).map Organism.id =
        l.map Organism.id := by
  intro l
  induction l with
  | nil => intro loc; rfl
  | cons o t ih =>
    intro loc
    simp only [assignSelectionLocs, List.map_cons, ih]

/-- The organisms of a list own adjacent sub-intervals of the number line
starting at `loc`: each `selection_loc` is the running total of the preceding
probabilities. -/
def locChain : ℚ → List Organism → Prop
  | _, [] => True
  | loc, o :: rest =>
    o.selection_loc = loc ∧ locChain (loc + o.selection_prob) rest

theorem locChain_assign (power : ℕ) (denom : ℚ) :
    ∀ (l : List Organism) (loc : ℚ),
      locChain loc (assignSelectionLocs power denom loc l) := by
  intro l
  induction l with
  | nil => intro loc; trivial
  | cons o t ih =>
    intro loc
    exact ⟨rfl, ih _⟩

theorem locChain_le (l : List Organism) :
    ∀ loc, locChain loc l → (∀ o ∈ l, 0 ≤ o.selection_prob) →
      ∀ o ∈ l, loc ≤ o.selection_loc := by
  induction l with
  | nil => intro loc _ _ o ho; cases ho
  | cons o rest ih =>
    intro loc hchain hpos x hx
    obtain ⟨hloc, hrest⟩ := hchain
    rcases List.mem_cons.mp hx with h | h
    · rw [h, hloc]
    · have h1 := ih (loc + o.selection_prob) hrest
        (fun y hy => hpos y (List.mem_cons_of_mem o hy)) x h
      have h2 : loc ≤ loc + o.selection_prob :=
        le_add_of_nonneg_right (hpos o (List.mem_cons_self o rest))
      exact le_trans h2 h1

theorem locChain_pairwise (l : List Organism) :
    ∀ loc, locChain loc l → (∀ o ∈ l, 0 ≤ o.selection_prob) →
      l.Pairwise (fun a b =>
        a.selection_loc + a.selection_prob ≤ b.selection_loc) := by
  induction l with
  | nil => intro _ _ _; exact List.Pairwise.nil
  | cons o rest ih =>
    intro loc hchain hpos
    obtain ⟨hloc, hrest⟩ := hchain
    rw [List.pairwise_cons]
    constructor
    · intro b hb
      rw [hloc]
      exact locChain_le rest (loc + o.selection_prob) hrest
        (fun y hy => hpos y (List.mem_cons_of_mem o hy)) b hb
    · exact ih _ hrest (fun y hy => hpos y (List.mem_cons_of_mem o hy))

theorem assignSelectionLocs_pairwise_fitness (power : ℕ) (denom : ℚ) :
    ∀ (l : List Organism),
      l.Pairwise (fun a b => a.fitness ≤ b.fitness) → ∀ loc,
      (assignSelectionLocs power denom loc l).Pairwise
        (fun a b => a.fitness ≤ b.fitness) := by
  intro l
  induction l with
  | nil => intro _ _; exact List.Pairwise.nil
  | cons o rest ih =>
    intro h loc
    rw [List.pairwise_cons] at h
    simp only [assignSelectionLocs]
    rw [List.pairwise_cons]
    constructor
    · intro b hb
      obtain ⟨y, hy, _, _, hbf⟩ :=
        mem_assignSelectionLocs power denom rest _ b hb
      rw [hbf]
      exact h.1 y hy
    · exact ih h.2 _

theorem assignSelectionLocs_prob_nonneg (power : ℕ) (denom : ℚ)
    (hd : 0 < denom) :
    ∀ (l : List Organism), (∀ o ∈ l, 0 ≤ o.fitness) → ∀ loc,
      ∀ o ∈ assignSelectionLocs power denom loc l, 0 ≤ o.selection_prob := by
  intro l
  induction l with
  | nil => intro _ _ o ho; cases ho
  | cons a rest ih =>
    intro hf loc o ho
    rcases List.mem_cons.mp ho with h | h
    · rw [h]
      exact div_nonneg
        (pow_nonneg (hf a (List.mem_cons_self a rest)) power) (le_of_lt hd)
    · exact ih (fun y hy => hf y (List.mem_cons_of_mem a hy)) _ o h

theorem sum_pow_pos (power : ℕ) (l : List Organism)
    (hf : ∀ o ∈ l, 0 ≤ o.fitness) (hex : ∃ o ∈ l, 0 < o.fitness) :
    0 < (l.map (fun o => o.fitness ^ power)).sum := by
  obtain ⟨o, ho, hpos⟩ := hex
  have hle : o.fitness ^ power ≤ (l.map (fun o => o.fitness ^ power)).sum := by
    apply List.single_le_sum
    · intro x hx
      obtain ⟨y, _, rfl⟩ := List.mem_map.mp hx
      exact pow_nonneg (hf y (by assumption)) power
    · exact List.mem_map_of_mem _ ho
  exact lt_of_lt_of_le (pow_pos hpos power) hle

theorem lookupById_mid_ne (s t2 : List Organism) (a x : Organism)
    (hne : x.id ≠ a.id) :
    lookupById (s ++ a :: t2) x = lookupById (s ++ t2) x := by
  unfold lookupById
  have hfa : List.find? (fun y => y.id == x.id) (a :: t2) =
      List.find? (fun y => y.id == x.id) t2 := by
    apply List.find?_cons_of_neg
    simp only [beq_iff_eq]
    exact fun hh => hne hh.symm
  rw [List.find?_append, hfa, ← List.find?_append]

theorem map_lookupById_perm :
    ∀ (l assigned : List Organism),
      ((l.map Organism.id).Perm (assigned.map Organism.id)) →
      (assigned.map Organism.id).Nodup →
      (l.map (lookupById assigned)).Perm assigned := by
  intro l
  induction l with
  | nil =>
    intro assigned hperm _
    have h0 : assigned.map Organism.id = [] :=
      List.Perm.eq_nil hperm.symm
    rw [List.map_eq_nil] at h0
    rw [h0]
    exact List.Perm.refl _
  | cons o t ih =>
    intro assigned hperm hnd
    have hoid : o.id ∈ assigned.map Organism.id :=
      hperm.mem_iff.mp (List.mem_map_of_mem _ (List.mem_cons_self o t))
    have hfind : (assigned.find? (fun y => y.id == o.id)).isSome := by
      rw [List.find?_isSome]
      obtain ⟨a, ha, haid⟩ := List.mem_map.mp hoid
      exact ⟨a, ha, beq_iff_eq.mpr haid⟩
    obtain ⟨a, hfa⟩ := Option.isSome_iff_exists.mp hfind
    have halook : lookupById assigned o = a := by
      unfold lookupById
      rw [hfa]
      rfl
    have haid : a.id = o.id := by
      have hp := List.find?_some hfa
      exact beq_iff_eq.mp hp
    have hamem : a ∈ assigned := List.mem_of_find?_eq_some hfa
    obtain ⟨s, t2, rfl⟩ := List.append_of_mem hamem
    have hlnd : ((o :: t).map Organism.id).Nodup := (hperm.nodup_iff).mpr hnd
    have hot : o.id ∉ t.map Organism.id := by
      rw [List.map_cons, List.nodup_cons] at hlnd
      exact hlnd.1
    have hmapeq : t.map (lookupById (s ++ a :: t2)) =
        t.map (lookupById (s ++ t2)) := by
      apply List.map_congr_left
      intro x hx
      apply lookupById_mid_ne
      rw [haid]
      intro hxo
      exact hot (hxo ▸ List.mem_map_of_mem Organism.id hx)
    have hperm2 : (t.map Organism.id).Perm ((s ++ t2).map Organism.id) := by
      have h0 : ((s ++ a :: t2).map Organism.id).Perm
          (a.id :: (s ++ t2).map Organism.id) := by
        rw [List.map_append, List.map_cons, List.map_append]
        exact List.perm_middle
      have h1 := hperm.trans h0
      rw [List.map_cons, ← haid] at h1
      exact List.Perm.cons_inv h1
    have hnd2 : ((s ++ t2).map Organism.id).Nodup := by
      have hsub : (s ++ t2).Sublist (s ++ a :: t2) :=
        List.Sublist.append (List.Sublist.refl s) (List.sublist_cons_self a t2)
      exact List.Nodup.sublist (List.Sublist.map Organism.id hsub) hnd
    have hiht := ih (s ++ t2) hperm2 hnd2
    rw [List.map_cons, halook, hmapeq]
    exact List.Perm.trans (hiht.cons a) (List.perm_middle.symm)

/-- C4: with at least one positive fitness (and all fitnesses non-negative,
as `compute_fitnesses` guarantees, so the normalising denominator is nonzero)
and distinct organism ids, `compute_selection_probs` succeeds and, in exact
rational arithmetic: the pool organisms after the call are exactly the
assigned list (in increasing-fitness order), their selection probabilities
sum to exactly 1, the intervals `[selection_loc, selection_loc +
selection_prob)` are adjacent starting at 0, probabilities are non-negative,
the list is ordered by non-decreasing fitness, and the intervals are
pairwise non-overlapping in increasing position — a partition of `[0, 1)`. -/
theorem compute_selection_probs_partition (p : Pool)
    (hf : ∀ o ∈ p.to_list, 0 ≤ o.fitness)
    (hex : ∃ o ∈ p.to_list, 0 < o.fitness)
    (hnd : (p.to_list.map Organism.id).Nodup) :
    ∃ p2 assigned,
      p.compute_selection_probs = some p2 ∧
      assigned = assignSelectionLocs p.selection.power
        ((sortByFitnessAsc p.to_list).foldl
          (fun d o => d + o.fitness ^ p.selection.power) 0) 0
        (sortByFitnessAsc p.to_list) ∧
      p2.to_list.Perm assigned ∧
      (p2.to_list.map Organism.selection_prob).sum = 1 ∧
      locChain 0 assigned ∧
      assigned.Pairwise (fun a b => a.fitness ≤ b.fitness) ∧
      (∀ o ∈ assigned, 0 ≤ o.selection_prob) ∧
      assigned.Pairwise
        (fun a b => a.selection_loc + a.selection_prob ≤ b.selection_loc) := by
  have hsperm : (sortByFitnessAsc p.to_list).Perm p.to_list :=
    sortByFitnessAsc_perm p.to_list
  have hfs : ∀ o ∈ sortByFitnessAsc p.to_list, 0 ≤ o.fitness :=
    fun o ho => hf o (hsperm.mem_iff.mp ho)
  have hexs : ∃ o ∈ sortByFitnessAsc p.to_list, 0 < o.fitness := by
    obtain ⟨o, ho, hpos⟩ := hex
    exact ⟨o, hsperm.mem_iff.mpr ho, hpos⟩
  have hsumpos : 0 < ((sortByFitnessAsc p.to_list).map
      (fun o => o.fitness ^ p.selection.power)).sum :=
    sum_pow_pos p.selection.power _ hfs hexs
  have hdpos : 0 < (sortByFitnessAsc p.to_list).foldl
      (fun d o => d + o.fitness ^ p.selection.power) 0 := by
    rw [foldl_add_eq_sum, zero_add]
    exact hsumpos
  have hdne : ¬ ((sortByFitnessAsc p.to_list).foldl
      (fun d o => d + o.fitness ^ p.selection.power) 0 = 0) :=
    ne_of_gt hdpos
  have hres : p.compute_selection_probs = some
      { p with
        promotion_set := p.promotion_set.map (lookupById
          (assignSelectionLocs p.selection.power
            ((sortByFitnessAsc p.to_list).foldl
              (fun d o => d + o.fitness ^ p.selection.power) 0) 0
            (sortByFitnessAsc p.to_list))),
        queue := p.queue.map (lookupById
          (assignSelectionLocs p.selection.power
            ((sortByFitnessAsc p.to_list).foldl
              (fun d o => d + o.fitness ^ p.selection.power) 0) 0
            (sortByFitnessAsc p.to_list))) } := by
    simp only [Pool.compute_selection_probs]
    rw [if_neg hdne]
  have hids_eq : (assignSelectionLocs p.selection.power
      ((sortByFitnessAsc p.to_list).foldl
        (fun d o => d + o.fitness ^ p.selection.power) 0) 0
      (sortByFitnessAsc p.to_list)).map Organism.id =
      (sortByFitnessAsc p.to_list).map Organism.id :=
    assignSelectionLocs_map_id _ _ _ _
  have hperm_ids : (p.to_list.map Organism.id).Perm
      ((assignSelectionLocs p.selection.power
        ((sortByFitnessAsc p.to_list).foldl
          (fun d o => d + o.fitness ^ p.selection.power) 0) 0
        (sortByFitnessAsc p.to_list)).map Organism.id) := by
    rw [hids_eq]
    exact (hsperm.map Organism.id).symm
  have hnd_ids : ((assignSelectionLocs p.selection.power
      ((sortByFitnessAsc p.to_list).foldl
        (fun d o => d + o.fitness ^ p.selection.power) 0) 0
      (sortByFitnessAsc p.to_list)).map Organism.id).Nodup := by
    rw [hids_eq]
    exact ((hsperm.map Organism.id).symm).nodup hnd
  have hperm_assigned := map_lookupById_perm p.to_list _ hperm_ids hnd_ids
  have hto : ({ p with
      promotion_set := p.promotion_set.map (lookupById
        (assignSelectionLocs p.selection.power
          ((sortByFitnessAsc p.to_list).foldl
            (fun d o => d + o.fitness ^ p.selection.power) 0) 0
          (sortByFitnessAsc p.to_list))),
      queue := p.queue.map (lookupById
        (assignSelectionLocs p.selection.power
          ((sortByFitnessAsc p.to_list).foldl
            (fun d o => d + o.fitness ^ p.selection.power) 0) 0
          (sortByFitnessAsc p.to_list))) } : Pool).to_list =
      p.to_list.map (lookupById
        (assignSelectionLocs p.selection.power
          ((sortByFitnessAsc p.to_list).foldl
            (fun d o => d + o.fitness ^ p.selection.power) 0) 0
          (sortByFitnessAsc p.to_list))) := by
    simp [Pool.to_list]
  have hnonneg := assignSelectionLocs_prob_nonneg p.selection.power _
    hdpos (sortByFitnessAsc p.to_list) hfs 0
  refine ⟨_, _, hres, rfl, ?_, ?_, locChain_assign _ _ _ _,
    assignSelectionLocs_pairwise_fitness _ _ _
      (sortByFitnessAsc_pairwise p.to_list) 0,
    hnonneg,
    locChain_pairwise _ 0 (locChain_assign _ _ _ _) hnonneg⟩
  · rw [hto]
    exact hperm_assigned
  · rw [hto]
    rw [List.Perm.sum_eq (hperm_assigned.map Organism.selection_prob)]
    rw [assignSelectionLocs_prob_sum, sum_map_div]
    rw [foldl_add_eq_sum, zero_add]
    exact div_self (ne_of_gt hsumpos)

def w4org1 : Organism := ⟨1, 0, 0, 1, 0, 0, true⟩

def w4org2 : Organism := ⟨2, 0, 0, 0, 0, 0, true⟩

def w4pool : Pool := ⟨2, 1, [w4org1], [w4org2], ⟨2, 1⟩, 0⟩

theorem compute_selection_probs_partition_witness :
    (w4pool.compute_selection_probs).isSome = true := by
  obtain ⟨p2, assigned, hres, _⟩ := compute_selection_probs_partition w4pool
    (by decide)
    (⟨w4org1, by decide, by decide⟩ : ∃ o ∈ w4pool.to_list, 0 < o.fitness)
    (by decide)
  rw [hres]
  rfl

end GASP
